import Mathlib

/-!
Shallow embedding of the dynamic-filter engine
(`src/engine/filterEngine.ts` and `src/types/filter.ts`).

Records are JSON-like dynamic values.  Host-runtime primitives that the
engine calls but the repository does not define (JavaScript `RegExp`
compilation, `Number(string)` parsing, number formatting, `dayjs` date
parsing and the wall clock) are abstracted into a `JsEnv` parameter; the
engine's own control flow is translated literally from the source.
-/

namespace DynamicFilter

/-! ## JavaScript numbers

A JS number is NaN, a signed infinity, or a finite value (modelled as a
rational; float rounding is not observable in any property proved here).
Comparisons follow IEEE/JS semantics: every ordered comparison and
strict equality involving NaN is false. -/

inductive JsNum where
  | nan : JsNum
  | inf (positive : Bool) : JsNum
  | fin (q : ℚ) : JsNum
  deriving DecidableEq

def JsNum.isNaN : JsNum → Bool
  | .nan => true
  | _ => false

/-- JS `<` on numbers (false whenever either side is NaN). -/
def JsNum.ltb : JsNum → JsNum → Bool
  | .nan, _ => false
  | _, .nan => false
  | .inf true, _ => false
  | _, .inf true => true
  | .inf false, .inf false => false
  | .inf false, _ => true
  | .fin _, .inf false => false
  | .fin a, .fin b => decide (a < b)

/-- JS `<=` on numbers (false whenever either side is NaN). -/
def JsNum.leb : JsNum → JsNum → Bool
  | .nan, _ => false
  | _, .nan => false
  | .inf true, .inf true => true
  | .inf true, _ => false
  | _, .inf true => true
  | .inf false, _ => true
  | .fin _, .inf false => false
  | .fin a, .fin b => decide (a ≤ b)

/-- JS `===` on numbers (false whenever either side is NaN). -/
def JsNum.eqb : JsNum → JsNum → Bool
  | .nan, _ => false
  | _, .nan => false
  | .inf s, .inf t => s == t
  | .fin a, .fin b => a == b
  | _, _ => false

/-! ## JavaScript values -/

/-- A JSON-like runtime value: the shapes a record field can hold. -/
inductive JsValue where
  | undefv : JsValue
  | nullv : JsValue
  | bool (b : Bool) : JsValue
  | num (n : JsNum) : JsValue
  | str (s : String) : JsValue
  | arr (xs : List JsValue) : JsValue
  | obj (fields : List (String × JsValue)) : JsValue

/-- One record of the dataset: a JS object's own enumerable fields. -/
abbrev JsRecord := List (String × JsValue)

/-- JS truthiness, `Boolean(v)`: `undefined`, `null`, `false`, NaN, `0`
and `""` are falsy; every other value (including any object) is truthy. -/
def jsTruthy : JsValue → Bool
  | .undefv => false
  | .nullv => false
  | .bool b => b
  | .num .nan => false
  | .num (.fin q) => q != 0
  | .num (.inf _) => true
  | .str s => s ≠ ""
  | .arr _ => true
  | .obj _ => true

/-! ## Host-runtime environment

The engine calls several primitives of the JavaScript runtime and of the
`dayjs` library.  They are not part of the repository, so they enter the
embedding as an explicit parameter. -/

structure JsEnv where
  /-- Models `new RegExp(pattern, flags)` followed by `.test`: `none` models a
  pattern that throws at compile time, `some t` a compiled regex whose
  `test` method is the function `t`. -/
  regexCompile : String → String → Option (String → Bool)
  /-- Models `Number(string)` parsing. -/
  parseNum : String → JsNum
  /-- Models `String(number)` formatting. -/
  numToStr : JsNum → String
  /-- Models `String(v)` for composite values (arrays, plain objects). -/
  jsString : JsValue → String
  /-- Models `dayjs(string)`: `some timestamp` when the date is valid. -/
  parseDate : String → Option Int
  /-- Models `dayjs` day granularity: the calendar day of a timestamp. -/
  day : Int → Int
  /-- Models `dayjs()` — the current timestamp. -/
  now : Int
  /-- Models `dayjs.subtract(n, "day")`. -/
  subDays : Int → Nat → Int

/-- Models `String(v ?? "")` as performed in `matchCondition`: nullish values
become `""`, strings pass through, primitives print canonically, and
composite values defer to the host `String()`. -/
def stringOrEmpty (env : JsEnv) : JsValue → String
  | .undefv => ""
  | .nullv => ""
  | .str s => s
  | .bool b => cond b "true" "false"
  | .num n => env.numToStr n
  | v => env.jsString v

/-- Models `Number(v)` coercion of a record value: `undefined → NaN`,
`null → 0`, booleans to 0/1, strings parsed by the host, composite
values via ToPrimitive (string conversion) then parsing. -/
def jsNumber (env : JsEnv) : JsValue → JsNum
  | .undefv => .nan
  | .nullv => .fin 0
  | .bool b => .fin (cond b 1 0)
  | .num n => n
  | .str s => env.parseNum s
  | v => env.parseNum (env.jsString v)

/-! ## String helpers (JS `String.prototype` methods, ASCII case map) -/

/-- One character of `toLowerCase` (ASCII range, which is all the engine's
own data ever exercises). -/
def lowerChar (c : Char) : Char :=
  if h : 65 ≤ c.toNat ∧ c.toNat ≤ 90 then
    Char.ofNatAux (c.toNat + 32)
      (Or.inl (by omega))
  else c

/-- Models `String.prototype.toLowerCase`. -/
def toLowerJS (s : String) : String := ⟨s.data.map lowerChar⟩

/-- Models `String.prototype.includes`. -/
def jsIncludes (s sub : String) : Bool := decide (sub.data <:+: s.data)

/-- Models `String.prototype.startsWith`. -/
def jsStartsWith (s pre : String) : Bool := decide (pre.data <+: s.data)

/-- Models `String.prototype.endsWith`. -/
def jsEndsWith (s suf : String) : Bool := decide (suf.data <:+ s.data)

/-! ## Filter data model (`src/types/filter.ts`) -/

/-- Type `FieldType` — the closed enumeration of filterable data types. -/
inductive FieldType where
  | text | number | date | amount | singleSelect | multiSelect | boolean
  deriving DecidableEq

/-- Shape `DateRange { start, end }` — empty string means "no bound". -/
structure DateRange where
  start : String
  «end» : String
  deriving DecidableEq

/-- Shape `NumberRange { min, max }` — `min`/`max` are `number | ""`;
`none` models the empty string. -/
structure NumberRange where
  min : Option ℚ
  max : Option ℚ
  deriving DecidableEq

/-- Union `FilterValue` — the union of value shapes a condition can carry.
`undefv`/`nullv` model a `value` slot holding `undefined`/`null` at
runtime (guarded against by `isValidFilter`). -/
inductive FilterValue where
  | undefv : FilterValue
  | nullv : FilterValue
  | str (s : String) : FilterValue
  | num (q : ℚ) : FilterValue
  | bool (b : Bool) : FilterValue
  | list (xs : List String) : FilterValue
  | dateRange (r : DateRange) : FilterValue
  | numberRange (r : NumberRange) : FilterValue
  deriving DecidableEq

/-- Shape `FilterCondition` — one user-specified constraint.  The engine
dispatches on `operator` as a raw string, so it is a `String` here. -/
structure FilterCondition where
  id : String
  fieldKey : String
  operator : String
  value : FilterValue
  deriving DecidableEq

/-- Shape `SelectOption`. -/
structure SelectOption where
  label : String
  value : String
  deriving DecidableEq

/-- Shape `FieldDefinition` — schema entry for one filterable field. -/
structure FieldDefinition where
  key : String
  label : String
  type : FieldType
  options : List SelectOption := []
  nested : Bool := false

/-- Table `OPERATORS_BY_TYPE` — the valid operator set of each field type. -/
def OPERATORS_BY_TYPE : FieldType → List String
  | .text => ["equals", "contains", "startsWith", "endsWith", "doesNotContain", "regex"]
  | .number => ["eq", "neq", "gt", "lt", "gte", "lte", "numberBetween"]
  | .date => ["between", "before", "after", "last7days", "last30days", "last90days"]
  | .amount => ["between"]
  | .singleSelect => ["is", "isNot"]
  | .multiSelect => ["in", "notIn", "all"]
  | .boolean => ["is"]

/-! ## Nested value access -/

/-- One step of the `reduce` in `getNestedValue`: descend into `acc` by
`key` when `acc` is truthy, is an object, and owns the key; otherwise
`undefined`.  Arrays are objects whose keys are their canonical indices
and `length`. -/
def nestedStep (acc : JsValue) (key : String) : JsValue :=
  match acc with
  | .obj fields =>
    match fields.lookup key with
    | some v => v
    | none => .undefv
  | .arr xs =>
    if key = "length" then .num (.fin xs.length)
    else
      match key.toNat? with
      | some i => if h : toString i = key ∧ i < xs.length then xs.get ⟨i, h.2⟩ else .undefv
      | none => .undefv
  | _ => .undefv

/-- Models `String.prototype.split(".")`, written on the character list:
yields the (possibly empty) segments between dots; the empty string
splits to `[""]`, as in JavaScript. -/
def splitDotAux : List Char → List Char → List String
  | [], acc => [⟨acc.reverse⟩]
  | c :: rest, acc =>
    if c = '.' then ⟨acc.reverse⟩ :: splitDotAux rest []
    else splitDotAux rest (c :: acc)

/-- Models `path.split(".")`. -/
def splitDot (s : String) : List String := splitDotAux s.data []

/-- Function `getNestedValue(obj, path)`: traverse a dot-separated path, returning
`undefined` as soon as a segment is missing — never throws. -/
def getNestedValue (obj : JsRecord) (path : String) : JsValue :=
  (splitDot path).foldl nestedStep (.obj obj)

/-! ## Text matcher -/

/-- Matcher `matchText`: case-insensitive string relations; `"regex"` compiles
the raw condition value with the `"i"` flag and tests the raw record
value, treating a compile failure (`try/catch`) as non-match. -/
def matchText (env : JsEnv) (value filterValue : String) (operator : String) : Bool :=
  let v := toLowerJS value
  let f := toLowerJS filterValue
  match operator with
  | "equals" => v == f
  | "contains" => jsIncludes v f
  | "startsWith" => jsStartsWith v f
  | "endsWith" => jsEndsWith v f
  | "doesNotContain" => ! jsIncludes v f
  | "regex" =>
    match env.regexCompile filterValue "i" with
    | some test => test value
    | none => false
  | _ => false

/-! ## Number matcher -/

/-- Bound of a `NumberRange`: empty `min` is `-Infinity`, empty `max` is
`+Infinity` (`range.min === "" ? -Infinity : Number(range.min)`). -/
def rangeBound (b : Option ℚ) (positive : Bool) : JsNum :=
  match b with
  | none => .inf positive
  | some q => .fin q

/-- Models `Number(filterValue)` on a condition value: numbers pass through,
strings are parsed by the host, booleans become 0/1, a list goes through
ToPrimitive (joined string) and the range objects coerce to NaN. -/
def jsNumberOfFilterValue (env : JsEnv) : FilterValue → JsNum
  | .undefv => .nan
  | .nullv => .fin 0
  | .num q => .fin q
  | .str s => env.parseNum s
  | .bool b => .fin (cond b 1 0)
  | .list xs => env.parseNum (String.intercalate "," xs)
  | .dateRange _ => .nan
  | .numberRange _ => .nan

/-- Matcher `matchNumber`: NaN record values never match; `"numberBetween"`
takes a `NumberRange` with inclusive, unbounded-on-empty endpoints
(a non-range value yields NaN bounds, hence non-match); other operators
compare against `Number(filterValue)`, non-match when that is NaN. -/
def matchNumber (env : JsEnv) (value : JsNum) (filterValue : FilterValue)
    (operator : String) : Bool :=
  if value.isNaN then false
  else if operator == "numberBetween" then
    match filterValue with
    | .numberRange range =>
      JsNum.leb (rangeBound range.min false) value
        && JsNum.leb value (rangeBound range.max true)
    | _ => false
  else
    let fv := jsNumberOfFilterValue env filterValue
    if fv.isNaN then false
    else
      match operator with
      | "eq" => JsNum.eqb value fv
      | "neq" => ! JsNum.eqb value fv
      | "gt" => JsNum.ltb fv value
      | "lt" => JsNum.ltb value fv
      | "gte" => JsNum.leb fv value
      | "lte" => JsNum.leb value fv
      | _ => false

/-! ## Date matcher -/

/-- Models `date.isAfter(bound) || date.isSame(bound, "day")` where the bound is
a parsed `dayjs`; an invalid bound compares false. -/
def afterOrSameDay (env : JsEnv) (date : Int) (bound : Option Int) : Bool :=
  match bound with
  | some b => decide (date > b) || env.day date == env.day b
  | none => false

/-- Models `date.isBefore(bound) || date.isSame(bound, "day")`. -/
def beforeOrSameDay (env : JsEnv) (date : Int) (bound : Option Int) : Bool :=
  match bound with
  | some b => decide (date < b) || env.day date == env.day b
  | none => false

/-- Models `date.isBefore(bound, "day")`. -/
def beforeDay (env : JsEnv) (date : Int) (bound : Option Int) : Bool :=
  match bound with
  | some b => decide (env.day date < env.day b)
  | none => false

/-- Models `date.isAfter(bound, "day")`. -/
def afterDay (env : JsEnv) (date : Int) (bound : Option Int) : Bool :=
  match bound with
  | some b => decide (env.day date > env.day b)
  | none => false

/-- Matcher `matchDate`: invalid record dates never match; `"between"` uses
inclusive endpoints, enforcing only the bounds present; `"before"` /
`"after"` take one bound (with fallback to the other endpoint); the
relative operators compare against now minus N days.  A non-`DateRange`
condition value reads both endpoints as absent. -/
def matchDate (env : JsEnv) (value : String) (filterValue : FilterValue)
    (operator : String) : Bool :=
  match env.parseDate value with
  | none => false
  | some date =>
    let s : String := match filterValue with | .dateRange r => r.start | _ => ""
    let e : String := match filterValue with | .dateRange r => r.«end» | _ => ""
    match operator with
    | "between" =>
      if s ≠ "" && e ≠ "" then
        afterOrSameDay env date (env.parseDate s)
          && beforeOrSameDay env date (env.parseDate e)
      else if s ≠ "" then afterOrSameDay env date (env.parseDate s)
      else if e ≠ "" then beforeOrSameDay env date (env.parseDate e)
      else true
    | "before" =>
      if e ≠ "" then beforeDay env date (env.parseDate e)
      else if s ≠ "" then beforeDay env date (env.parseDate s)
      else true
    | "after" =>
      if s ≠ "" then afterDay env date (env.parseDate s)
      else if e ≠ "" then afterDay env date (env.parseDate e)
      else true
    | "last7days" => decide (date > env.subDays env.now 7)
    | "last30days" => decide (date > env.subDays env.now 30)
    | "last90days" => decide (date > env.subDays env.now 90)
    | _ => false

/-! ## Amount, select and boolean matchers -/

/-- Matcher `matchAmountRange`: inclusive min/max range, unbounded on empty — the
operator plays no role for Amount fields. -/
def matchAmountRange (value : JsNum) (range : NumberRange) : Bool :=
  if value.isNaN then false
  else
    JsNum.leb (rangeBound range.min false) value
      && JsNum.leb value (rangeBound range.max true)

/-- Matcher `matchSingleSelect`: strict `===` / `!==` of the record string and
the condition value (no lowercasing; strict comparison with a non-string
condition value is `false`, so `isNot` is then `true`). -/
def matchSingleSelect (value : String) (filterValue : FilterValue)
    (operator : String) : Bool :=
  match operator with
  | "is" =>
    match filterValue with
    | .str s => value == s
    | _ => false
  | "isNot" =>
    match filterValue with
    | .str s => value != s
    | _ => true
  | _ => false

/-- Matcher `matchMultiSelect`: an empty selected list always matches; `"in"` is
any-overlap, `"notIn"` no-overlap, `"all"` superset.  (The source's
`Array.isArray(values)` guard is vacuous here: `values` is a list.) -/
def matchMultiSelect (values filterValues : List String) (operator : String) : Bool :=
  if filterValues.isEmpty then true
  else
    match operator with
    | "in" => filterValues.any (fun fv => values.contains fv)
    | "notIn" => ! filterValues.any (fun fv => values.contains fv)
    | "all" => filterValues.all (fun fv => values.contains fv)
    | _ => false

/-- Matcher `matchBoolean`: `Boolean(value) === filterValue`.  Strict equality of
a boolean with a non-boolean condition value is `false`. -/
def matchBoolean (value : JsValue) (filterValue : FilterValue) : Bool :=
  match filterValue with
  | .bool b => jsTruthy value == b
  | _ => false

/-! ## Condition validator -/

/-- Validator `isValidFilter`: a condition is applied only when its `fieldKey` and
`operator` are non-empty and its value carries data — relative date
operators need no value; `undefined`/`null`, empty strings, empty lists
and fully-empty ranges are rejected. -/
def isValidFilter (condition : FilterCondition) : Bool :=
  if condition.fieldKey = "" || condition.operator = "" then false
  else if ["last7days", "last30days", "last90days"].contains condition.operator then true
  else
    match condition.value with
    | .undefv => false
    | .nullv => false
    | .str s => s ≠ ""
    | .list xs => ! xs.isEmpty
    | .dateRange dr => dr.start ≠ "" || dr.«end» ≠ ""
    | .numberRange nr => nr.min != none || nr.max != none
    | _ => true

/-! ## Condition dispatcher -/

/-- The runtime content of the `condition.value as string` assertion: a
non-string condition value is modelled as `""` (the value-shape invariant
of §3 makes this branch unreachable for well-formed conditions). -/
def FilterValue.asString : FilterValue → String
  | .str s => s
  | _ => ""

/-- The runtime content of the `condition.value as string[]` assertion,
`[]` for a non-list (unreachable under the value-shape invariant). -/
def FilterValue.asStringList : FilterValue → List String
  | .list xs => xs
  | _ => []

/-- Models `Array.isArray(rawValue) ? rawValue as string[] : []`.  Non-string
array elements are dropped: `includes` compares them with `===` against
string selections, which such elements can never satisfy. -/
def asStringArray : JsValue → List String
  | .arr xs => xs.filterMap (fun x => match x with | .str s => some s | _ => none)
  | _ => []

/-- Dispatcher `matchCondition`: read the record value through the dot path and
route to the matcher for the field's declared type.  For Amount, a
non-range condition value makes both bounds NaN, hence non-match. -/
def matchCondition (env : JsEnv) (record : JsRecord) (condition : FilterCondition)
    (fieldDef : FieldDefinition) : Bool :=
  let rawValue := getNestedValue record condition.fieldKey
  match fieldDef.type with
  | .text =>
    matchText env (stringOrEmpty env rawValue) condition.value.asString condition.operator
  | .number =>
    matchNumber env (jsNumber env rawValue) condition.value condition.operator
  | .date =>
    matchDate env (stringOrEmpty env rawValue) condition.value condition.operator
  | .amount =>
    match condition.value with
    | .numberRange range => matchAmountRange (jsNumber env rawValue) range
    | _ => false
  | .singleSelect =>
    matchSingleSelect (stringOrEmpty env rawValue) condition.value condition.operator
  | .multiSelect =>
    matchMultiSelect (asStringArray rawValue) condition.value.asStringList condition.operator
  | .boolean =>
    matchBoolean rawValue condition.value

/-! ## Main entry point -/

/-- Distinct field keys in first-occurrence order — the key order of the
`groupedByField` accumulation object. -/
def dedupKeys : List String → List String
  | [] => []
  | k :: ks => k :: dedupKeys (ks.filter (fun x => x ≠ k))
termination_by l => l.length
decreasing_by
  simp only [List.length_cons]
  exact Nat.lt_succ_of_le (List.length_filter_le _ _)

/-- The group keys of `groupedByField` built from the valid conditions. -/
def groupKeys (conditions : List FilterCondition) : List String :=
  dedupKeys (conditions.map (·.fieldKey))

/-- Models `new Map(fieldDefinitions.map(fd => [fd.key, fd])).get(key)` — a
later definition with the same key overwrites an earlier one. -/
def fieldLookup (fieldDefinitions : List FieldDefinition) (key : String) :
    Option FieldDefinition :=
  fieldDefinitions.foldl (fun acc fd => if fd.key = key then some fd else acc) none

/-- The predicate of the final `data.filter`: AND over the field groups,
OR (short-circuiting `some`) within each group; a group whose key has no
field definition is trivially satisfied. -/
def keepRecord (env : JsEnv) (validConditions : List FilterCondition)
    (fieldDefinitions : List FieldDefinition) (record : JsRecord) : Bool :=
  (groupKeys validConditions).all fun fieldKey =>
    match fieldLookup fieldDefinitions fieldKey with
    | none => true
    | some fieldDef =>
      (validConditions.filter (fun c => c.fieldKey = fieldKey)).any fun condition =>
        matchCondition env record condition fieldDef

/-- Entry point `applyFilters`: drop invalid conditions; with none left return the
input unchanged; otherwise keep the records satisfying every field
group. -/
def applyFilters (env : JsEnv) (data : List JsRecord)
    (conditions : List FilterCondition)
    (fieldDefinitions : List FieldDefinition) : List JsRecord :=
  let validConditions := conditions.filter isValidFilter
  if validConditions.isEmpty then data
  else data.filter (keepRecord env validConditions fieldDefinitions)

/-! ## Default value factory -/

/-- Factory `getDefaultValue`: the canonical empty value of each field type. -/
def getDefaultValue : FieldType → FilterValue
  | .text => .str ""
  | .number => .num 0
  | .date => .dateRange ⟨"", ""⟩
  | .amount => .numberRange ⟨none, none⟩
  | .singleSelect => .str ""
  | .multiSelect => .list []
  | .boolean => .bool true

/-- Factory `getDefaultValueForOperator`: operator-specific overrides. -/
def getDefaultValueForOperator (type : FieldType) (operator : String) : FilterValue :=
  if ["last7days", "last30days", "last90days"].contains operator then
    .dateRange ⟨"", ""⟩
  else if operator == "numberBetween" then .numberRange ⟨none, none⟩
  else getDefaultValue type

/-! ## Concrete host environments (for evaluating the engine on inputs) -/

/-- A minimal host runtime: no string parses as a number or date, every
regex pattern fails to compile. -/
def envTriv : JsEnv where
  regexCompile := fun _ _ => none
  parseNum := fun _ => .nan
  numToStr := fun _ => ""
  jsString := fun _ => ""
  parseDate := fun _ => none
  day := id
  now := 0
  subDays := fun t _ => t

/-- A host runtime whose regex compiler always succeeds with an
always-true test. -/
def envRegexTrue : JsEnv :=
  { envTriv with regexCompile := fun _ _ => some (fun _ => true) }

/-! ## Helper lemmas -/

theorem toNat_ofNatAux (n : ℕ) (h : n.isValidChar) : (Char.ofNatAux n h).toNat = n := rfl

theorem lowerChar_idem (c : Char) : lowerChar (lowerChar c) = lowerChar c := by
  by_cases h : 65 ≤ c.toNat ∧ c.toNat ≤ 90
  · unfold lowerChar
    rw [dif_pos h]
    rw [dif_neg (by rw [toNat_ofNatAux]; omega)]
  · unfold lowerChar
    rw [dif_neg h, dif_neg h]

theorem toLowerJS_idem (s : String) : toLowerJS (toLowerJS s) = toLowerJS s := by
  unfold toLowerJS
  apply congrArg String.mk
  show (s.data.map lowerChar).map lowerChar = s.data.map lowerChar
  rw [List.map_map]
  exact List.map_congr_left fun c _ => lowerChar_idem c

theorem mem_dedupKeys (a : String) (l : List String) : a ∈ dedupKeys l ↔ a ∈ l := by
  induction l using dedupKeys.induct with
  | case1 => simp [dedupKeys]
  | case2 k ks ih =>
    rw [dedupKeys]
    by_cases hak : a = k
    · simp [hak]
    · simp only [List.mem_cons, hak, false_or, ih, List.mem_filter]
      constructor
      · exact fun h => h.1
      · exact fun h => ⟨h, by simpa using hak⟩

theorem dedupKeys_filter (p : String → Bool) (l : List String) :
    dedupKeys (l.filter p) = (dedupKeys l).filter p := by
  induction l using dedupKeys.induct with
  | case1 => simp [dedupKeys]
  | case2 k ks ih =>
    by_cases hp : p k
    · rw [List.filter_cons_of_pos hp, dedupKeys, dedupKeys,
        List.filter_cons_of_pos hp, List.filter_comm, ih]
    · rw [List.filter_cons_of_neg hp, dedupKeys, List.filter_cons_of_neg hp, ← ih,
        List.filter_comm]
      congr 1
      apply (List.filter_eq_self.mpr _).symm
      intro x hx
      have hpx : p x := List.mem_filter.mp hx |>.2
      simp only [ne_eq, decide_eq_true_eq]
      intro hxk
      rw [hxk] at hpx
      exact hp hpx

theorem mem_groupKeys (k : String) (cs : List FilterCondition) :
    k ∈ groupKeys cs ↔ k ∈ cs.map (·.fieldKey) := mem_dedupKeys k _

theorem groupKeys_filter (p : String → Bool) (cs : List FilterCondition) :
    groupKeys (cs.filter (fun c => p c.fieldKey)) = (groupKeys cs).filter p := by
  unfold groupKeys
  rw [← dedupKeys_filter]
  congr 1
  exact (List.filter_map (·.fieldKey) cs).symm

/-- Unfolding equation of `applyFilters`. -/
theorem applyFilters_eq (env : JsEnv) (data : List JsRecord)
    (conditions : List FilterCondition) (fds : List FieldDefinition) :
    applyFilters env data conditions fds =
      if (conditions.filter isValidFilter).isEmpty then data
      else data.filter (keepRecord env (conditions.filter isValidFilter) fds) := rfl

/-- Characterization of `keepRecord` as the AND-across-groups / OR-within-group predicate,
when every valid condition's field key has a definition. -/
theorem keepRecord_eq_true_iff (env : JsEnv) (vC : List FilterCondition)
    (fds : List FieldDefinition) (r : JsRecord)
    (hdef : ∀ c ∈ vC, (fieldLookup fds c.fieldKey).isSome) :
    keepRecord env vC fds r = true ↔
      ∀ k ∈ groupKeys vC, ∃ fd, fieldLookup fds k = some fd ∧
        ∃ c ∈ vC.filter (fun c => c.fieldKey = k), matchCondition env r c fd = true := by
  unfold keepRecord
  rw [List.all_eq_true]
  constructor
  · intro h k hk
    obtain ⟨c, hc, hck⟩ := List.mem_map.mp ((mem_groupKeys k vC).mp hk)
    obtain ⟨fd, hfd⟩ := Option.isSome_iff_exists.mp (hck ▸ hdef c hc)
    refine ⟨fd, hfd, ?_⟩
    have h' := h k hk
    rw [hfd] at h'
    exact List.any_eq_true.mp h'
  · intro h k hk
    obtain ⟨fd, hfd, hc⟩ := h k hk
    rw [hfd]
    exact List.any_eq_true.mpr hc

/-! ## Claim theorems -/

/-- C5: if no condition passes the validator (in particular when the
condition list is empty), `applyFilters` returns the dataset unchanged. -/
theorem applyFilters_identity_of_no_valid (env : JsEnv) (data : List JsRecord)
    (conditions : List FilterCondition) (fds : List FieldDefinition)
    (h : conditions.filter isValidFilter = []) :
    applyFilters env data conditions fds = data := by
  unfold applyFilters
  rw [h]
  rfl

/-- C5 witness: the empty condition list leaves a dataset unchanged. -/
theorem applyFilters_identity_of_no_valid_witness :
    applyFilters envTriv [[("a", JsValue.str "x")]] [] [] = [[("a", JsValue.str "x")]] :=
  applyFilters_identity_of_no_valid envTriv [[("a", JsValue.str "x")]] [] [] rfl

/-- C7: a condition with an empty `fieldKey` or an empty `operator` is
rejected by `isValidFilter` and never affects `applyFilters`, wherever
it is inserted in the condition list. -/
theorem validator_gating (env : JsEnv) (data : List JsRecord)
    (cs₁ cs₂ : List FilterCondition) (fds : List FieldDefinition)
    (c : FilterCondition) (hc : c.fieldKey = "" ∨ c.operator = "") :
    isValidFilter c = false ∧
      applyFilters env data (cs₁ ++ c :: cs₂) fds = applyFilters env data (cs₁ ++ cs₂) fds := by
  have hinv : isValidFilter c = false := by
    unfold isValidFilter
    rcases hc with h | h <;> simp [h]
  refine ⟨hinv, ?_⟩
  unfold applyFilters
  have hfil : (cs₁ ++ c :: cs₂).filter isValidFilter = (cs₁ ++ cs₂).filter isValidFilter := by
    simp [List.filter_append, List.filter_cons, hinv]
  rw [hfil]

/-- C7 witness: a condition with empty `fieldKey` is invalid and adding
it to the condition list leaves the result unchanged. -/
theorem validator_gating_witness :
    isValidFilter ⟨"w", "", "is", .bool true⟩ = false ∧
      applyFilters envTriv [[("a", JsValue.str "x")]]
          ([] ++ ⟨"w", "", "is", .bool true⟩ :: []) [] =
        applyFilters envTriv [[("a", JsValue.str "x")]] ([] ++ []) [] :=
  validator_gating envTriv [[("a", JsValue.str "x")]] [] [] [] ⟨"w", "", "is", .bool true⟩
    (Or.inl rfl)

/-- C9: the Text `regex` operator compiles the raw condition value with
the case-insensitive flag and tests the raw (non-lowercased) record
value; a pattern that fails to compile yields non-match. -/
theorem regex_raw_value_and_compile_failure (env : JsEnv) (value filterValue : String) :
    (env.regexCompile filterValue "i" = none →
        matchText env value filterValue "regex" = false) ∧
      (∀ t, env.regexCompile filterValue "i" = some t →
        matchText env value filterValue "regex" = t value) := by
  constructor
  · intro h
    simp only [matchText, h]
  · intro t h
    simp only [matchText, h]

/-- C9 witness: with a host whose compiler rejects `"("` the matcher
returns false, and with one whose compiled test always succeeds it
returns the test of the raw value. -/
theorem regex_raw_value_and_compile_failure_witness :
    matchText envTriv "abc" "(" "regex" = false ∧
      matchText envRegexTrue "abc" "x" "regex" = true := by
  constructor
  · exact (regex_raw_value_and_compile_failure envTriv "abc" "(").1 rfl
  · have h := (regex_raw_value_and_compile_failure envRegexTrue "abc" "x").2
      (fun _ => true) rfl
    simpa using h

/-- C10: for a Boolean field, an absent record value is coerced to
`false`, so a condition with value `false` matches a record lacking the
field and a condition with value `true` does not. -/
theorem boolean_absent_coerces_to_false (env : JsEnv) (record : JsRecord)
    (c : FilterCondition) (fd : FieldDefinition)
    (ht : fd.type = FieldType.boolean)
    (habs : getNestedValue record c.fieldKey = JsValue.undefv) :
    (c.value = FilterValue.bool false → matchCondition env record c fd = true) ∧
      (c.value = FilterValue.bool true → matchCondition env record c fd = false) := by
  constructor <;> intro hv <;>
    simp [matchCondition, ht, habs, hv, matchBoolean, jsTruthy]

/-- C10 witness: on the empty record, a Boolean `is false` condition
matches. -/
theorem boolean_absent_coerces_to_false_witness :
    matchCondition envTriv [] ⟨"1", "isActive", "is", .bool false⟩
      ⟨"isActive", "Active", .boolean, [], false⟩ = true :=
  (boolean_absent_coerces_to_false envTriv [] ⟨"1", "isActive", "is", .bool false⟩
    ⟨"isActive", "Active", .boolean, [], false⟩ rfl rfl).1 rfl

/-- C2 counterexample: the SingleSelect `is` operator distinguishes
operands that differ only in letter case, so not every string comparison
in the matchers is case-insensitive. -/
theorem select_not_case_insensitive_cex :
    matchSingleSelect "Engineering" (FilterValue.str "engineering") "is" = false ∧
      matchSingleSelect "engineering" (FilterValue.str "engineering") "is" = true := by
  constructor <;> decide

/-- C2 (amended): the five lowercasing Text operators are insensitive to
the letter case of both operands (`regex` delegates a case-insensitive
pattern to the host, and the select matchers compare exactly). -/
theorem text_operators_case_insensitive (env : JsEnv) (v f op : String)
    (hop : op ∈ (["equals", "contains", "startsWith", "endsWith", "doesNotContain"] :
      List String)) :
    matchText env v f op = matchText env (toLowerJS v) (toLowerJS f) op := by
  fin_cases hop <;> simp [matchText, toLowerJS_idem]

/-- C2 witness: `contains` is case-insensitive on a concrete pair. -/
theorem text_operators_case_insensitive_witness :
    matchText envTriv "AliCE" "aLi" "contains" =
      matchText envTriv (toLowerJS "AliCE") (toLowerJS "aLi") "contains" :=
  text_operators_case_insensitive envTriv "AliCE" "aLi" "contains" (by decide)

/-- A value that is not an array coerces to the empty string list in the
MultiSelect branch of `matchCondition`. -/
theorem asStringArray_eq_nil_of_not_arr (v : JsValue)
    (h : ∀ xs, v ≠ JsValue.arr xs) : asStringArray v = [] := by
  cases v <;> first
    | rfl
    | exact absurd rfl (h _)

/-- C3 counterexample: a valid MultiSelect `notIn` condition evaluated on
a record whose value is a string (not a sequence) yields `true`, not the
claimed non-match. -/
theorem multiSelect_notIn_nonsequence_cex :
    isValidFilter ⟨"1", "skills", "notIn", .list ["Go"]⟩ = true ∧
      matchCondition envTriv [("skills", JsValue.str "React")]
        ⟨"1", "skills", "notIn", .list ["Go"]⟩
        ⟨"skills", "Skills", .multiSelect, [], false⟩ = true := by
  constructor <;> rfl

/-- C3 (amended): on a non-sequence record value a valid MultiSelect
condition (nonempty selected list) coerces the record side to the empty
list, so `in` and `all` yield non-match while `notIn` vacuously matches;
no operator can raise an error. -/
theorem multiSelect_nonsequence_result (env : JsEnv) (record : JsRecord)
    (c : FilterCondition) (fd : FieldDefinition)
    (ht : fd.type = FieldType.multiSelect)
    (l : List String) (hv : c.value = FilterValue.list l) (hl : l ≠ [])
    (hraw : ∀ xs, getNestedValue record c.fieldKey ≠ JsValue.arr xs) :
    matchCondition env record c fd = (c.operator == "notIn") := by
  rcases l with _ | ⟨x, xs⟩
  · exact absurd rfl hl
  simp only [matchCondition, ht, hv,
    asStringArray_eq_nil_of_not_arr _ hraw, FilterValue.asStringList]
  unfold matchMultiSelect
  simp only [List.isEmpty_cons, Bool.false_eq_true, if_false]
  split <;> simp_all

/-- C3 witness: `in` on a non-sequence record value is non-match. -/
theorem multiSelect_nonsequence_result_witness :
    matchCondition envTriv [("skills", JsValue.str "React")]
      ⟨"1", "skills", "in", .list ["Go"]⟩
      ⟨"skills", "Skills", .multiSelect, [], false⟩ = ("in" == "notIn") :=
  multiSelect_nonsequence_result envTriv [("skills", JsValue.str "React")]
    ⟨"1", "skills", "in", .list ["Go"]⟩ ⟨"skills", "Skills", .multiSelect, [], false⟩
    rfl ["Go"] rfl (by decide) (fun _ h => JsValue.noConfusion h)

/-- C4 counterexample: `matchAmountRange` never inspects the operator, so
an Amount condition whose operator `"gt"` is outside the Amount operator
set still matches a record inside the range. -/
theorem amount_ignores_unknown_operator_cex :
    "gt" ∉ OPERATORS_BY_TYPE FieldType.amount ∧
      isValidFilter ⟨"1", "salary", "gt", .numberRange ⟨some 0, none⟩⟩ = true ∧
      matchCondition envTriv [("salary", JsValue.num (.fin 50))]
        ⟨"1", "salary", "gt", .numberRange ⟨some 0, none⟩⟩
        ⟨"salary", "Salary", .amount, [], false⟩ = true := by
  refine ⟨by decide, rfl, ?_⟩
  rfl

/-- C4 (amended): for the five families whose matcher dispatches on the
operator — Text, Number, Date, SingleSelect, MultiSelect — an operator
outside the field type's operator set yields non-match (for MultiSelect
under the value-shape invariant of a nonempty selected list); Amount and
Boolean matchers ignore the operator instead. -/
theorem unknown_operator_nonmatch (env : JsEnv) (record : JsRecord)
    (c : FilterCondition) (fd : FieldDefinition)
    (hty : fd.type = FieldType.text ∨ fd.type = FieldType.number ∨
      fd.type = FieldType.date ∨ fd.type = FieldType.singleSelect ∨
      fd.type = FieldType.multiSelect)
    (hop : c.operator ∉ OPERATORS_BY_TYPE fd.type)
    (hms : fd.type = FieldType.multiSelect →
      ∃ l, c.value = FilterValue.list l ∧ l ≠ []) :
    matchCondition env record c fd = false := by
  rcases hty with ht | ht | ht | ht | ht
  · simp only [OPERATORS_BY_TYPE, ht, List.mem_cons, List.not_mem_nil, or_false,
      not_or] at hop
    simp only [matchCondition, ht]
    unfold matchText
    split <;> simp_all
  · simp only [OPERATORS_BY_TYPE, ht, List.mem_cons, List.not_mem_nil, or_false,
      not_or] at hop
    simp only [matchCondition, ht]
    unfold matchNumber
    split
    · rfl
    · have : (c.operator == "numberBetween") = false := by
        simp only [beq_eq_false_iff_ne, ne_eq]
        exact fun h => hop.2.2.2.2.2.2 h
      rw [this]
      simp only [Bool.false_eq_true, if_false]
      split
      · rfl
      · split <;> simp_all
  · simp only [OPERATORS_BY_TYPE, ht, List.mem_cons, List.not_mem_nil, or_false,
      not_or] at hop
    simp only [matchCondition, ht]
    unfold matchDate
    split
    · rfl
    · split <;> simp_all
  · simp only [OPERATORS_BY_TYPE, ht, List.mem_cons, List.not_mem_nil, or_false,
      not_or] at hop
    simp only [matchCondition, ht]
    unfold matchSingleSelect
    split <;> simp_all
  · obtain ⟨l, hv, hl⟩ := hms ht
    rcases l with _ | ⟨x, xs⟩
    · exact absurd rfl hl
    simp only [OPERATORS_BY_TYPE, ht, List.mem_cons, List.not_mem_nil, or_false,
      not_or] at hop
    simp only [matchCondition, ht, hv, FilterValue.asStringList]
    unfold matchMultiSelect
    simp only [List.isEmpty_cons, Bool.false_eq_true, if_false]
    split <;> simp_all

/-- C4 witness: a Text condition with the foreign operator `"gt"` never
matches. -/
theorem unknown_operator_nonmatch_witness :
    matchCondition envTriv [("name", JsValue.str "Alice")]
      ⟨"1", "name", "gt", .str "Ali"⟩
      ⟨"name", "Name", .text, [], false⟩ = false :=
  unknown_operator_nonmatch envTriv [("name", JsValue.str "Alice")]
    ⟨"1", "name", "gt", .str "Ali"⟩ ⟨"name", "Name", .text, [], false⟩
    (Or.inl rfl) (by decide) (fun h => by simp at h)

/-- C1: a record survives `applyFilters` iff, for every group of
surviving valid conditions sharing a `fieldKey` (AND across groups), at
least one condition of the group matches it (OR within the group), each
evaluated by `matchCondition` — the matcher of the field's type on the
dot-path value — provided every surviving condition's key has a field
definition. -/
theorem applyFilters_keeps_iff (env : JsEnv) (data : List JsRecord)
    (conditions : List FilterCondition) (fds : List FieldDefinition) (r : JsRecord)
    (hdef : ∀ c ∈ conditions.filter isValidFilter, (fieldLookup fds c.fieldKey).isSome) :
    r ∈ applyFilters env data conditions fds ↔
      r ∈ data ∧
        ∀ k ∈ groupKeys (conditions.filter isValidFilter),
          ∃ fd, fieldLookup fds k = some fd ∧
            ∃ c ∈ (conditions.filter isValidFilter).filter (fun c => c.fieldKey = k),
              matchCondition env r c fd = true := by
  rw [applyFilters_eq]
  by_cases hE : (conditions.filter isValidFilter).isEmpty = true
  · have hnil : conditions.filter isValidFilter = [] := List.isEmpty_iff.mp hE
    rw [if_pos hE, hnil]
    simp [groupKeys, dedupKeys]
  · rw [if_neg hE, List.mem_filter,
      keepRecord_eq_true_iff env _ fds r hdef]

/-- C1 witness: a one-record dataset with a Text `contains` condition
whose field is defined; the record is kept. -/
theorem applyFilters_keeps_iff_witness :
    [("name", JsValue.str "Alice")] ∈
      applyFilters envTriv [[("name", JsValue.str "Alice")]]
        [⟨"1", "name", "contains", .str "ali"⟩]
        [⟨"name", "Name", .text, [], false⟩] := by
  refine (applyFilters_keeps_iff envTriv _ _ _ _ ?_).mpr ⟨List.mem_singleton.mpr rfl, ?_⟩
  · intro c hc
    have hc1 : c ∈ [(⟨"1", "name", "contains", .str "ali"⟩ : FilterCondition)] :=
      (List.mem_filter.mp hc).1
    rw [List.mem_singleton] at hc1
    subst hc1
    rfl
  · intro k hk
    have h' : groupKeys
        ([(⟨"1", "name", "contains", .str "ali"⟩ : FilterCondition)].filter isValidFilter) =
        ["name"] := by
      have h1 : [(⟨"1", "name", "contains", .str "ali"⟩ : FilterCondition)].filter
          isValidFilter = [⟨"1", "name", "contains", .str "ali"⟩] := rfl
      rw [h1, groupKeys]
      simp [dedupKeys]
    rw [h', List.mem_singleton] at hk
    subst hk
    refine ⟨⟨"name", "Name", .text, [], false⟩, rfl,
      ⟨"1", "name", "contains", .str "ali"⟩, ?_, ?_⟩
    · decide
    · decide

/-- Dropping a condition on a field key foreign to every condition of
`vC` can only keep more records. -/
theorem keepRecord_append_new (env : JsEnv) (vC : List FilterCondition)
    (F : List FieldDefinition) (c : FilterCondition) (r : JsRecord)
    (hnew : ∀ c' ∈ vC, c'.fieldKey ≠ c.fieldKey)
    (h : keepRecord env (vC ++ [c]) F r = true) :
    keepRecord env vC F r = true := by
  unfold keepRecord at h ⊢
  rw [List.all_eq_true] at h ⊢
  intro k hk
  have hkm : k ∈ vC.map (·.fieldKey) := (mem_groupKeys k vC).mp hk
  have hk2 : k ∈ groupKeys (vC ++ [c]) := by
    rw [mem_groupKeys, List.map_append]
    exact List.mem_append_left _ hkm
  have hck : ¬(c.fieldKey = k) := by
    obtain ⟨c', hc', hc'k⟩ := List.mem_map.mp hkm
    exact fun e => hnew c' hc' (hc'k.trans e.symm)
  have h' := h k hk2
  rw [List.filter_append, List.filter_cons_of_neg (by simpa using hck),
    List.filter_nil, List.append_nil] at h'
  exact h'

/-- C6: adding a condition whose `fieldKey` differs from that of every
condition already present produces a result that is a sublist of the
original result — a new field group never enlarges the output. -/
theorem applyFilters_and_monotone (env : JsEnv) (data : List JsRecord)
    (C : List FilterCondition) (F : List FieldDefinition) (c : FilterCondition)
    (hnew : ∀ c' ∈ C, c'.fieldKey ≠ c.fieldKey) :
    (applyFilters env data (C ++ [c]) F).Sublist (applyFilters env data C F) := by
  rw [applyFilters_eq, applyFilters_eq, List.filter_append]
  cases hc : isValidFilter c with
  | false =>
    rw [List.filter_cons_of_neg (by simp [hc]), List.filter_nil, List.append_nil]
  | true =>
    rw [List.filter_cons_of_pos (by simp [hc]), List.filter_nil]
    by_cases hE : (C.filter isValidFilter).isEmpty = true
    · have hnil := List.isEmpty_iff.mp hE
      rw [hnil]
      simp only [List.nil_append, List.isEmpty_cons, List.isEmpty_nil,
        Bool.false_eq_true, if_false, if_true]
      exact List.filter_sublist data
    · rw [if_neg hE, if_neg (by simp [List.isEmpty_iff])]
      apply List.monotone_filter_right
      intro r hr
      exact keepRecord_append_new env _ F c r
        (fun c' hc' => hnew c' (List.mem_filter.mp hc').1) hr

/-- C6 witness: a Boolean condition on the fresh field `isActive` added
to a Text condition on `name`. -/
theorem applyFilters_and_monotone_witness :
    (applyFilters envTriv [[("name", JsValue.str "Alice")]]
        ([⟨"1", "name", "contains", .str "ali"⟩] ++ [⟨"2", "isActive", "is", .bool true⟩])
        [⟨"name", "Name", .text, [], false⟩]).Sublist
      (applyFilters envTriv [[("name", JsValue.str "Alice")]]
        [⟨"1", "name", "contains", .str "ali"⟩]
        [⟨"name", "Name", .text, [], false⟩]) :=
  applyFilters_and_monotone envTriv [[("name", JsValue.str "Alice")]]
    [⟨"1", "name", "contains", .str "ali"⟩] [⟨"name", "Name", .text, [], false⟩]
    ⟨"2", "isActive", "is", .bool true⟩ (by decide)

/-- Within a group whose key has a definition, restricting the valid
conditions to those with defined keys changes nothing. -/
theorem group_restrict (vC : List FilterCondition) (F : List FieldDefinition)
    (k : String) (hk : (fieldLookup F k).isSome = true) :
    (vC.filter fun c => (fieldLookup F c.fieldKey).isSome).filter
        (fun c => c.fieldKey = k) =
      vC.filter (fun c => c.fieldKey = k) := by
  rw [List.filter_comm]
  apply List.filter_eq_self.mpr
  intro c hc
  have hck : c.fieldKey = k := by simpa using (List.mem_filter.mp hc).2
  simp [hck, hk]

/-- The keep predicate ignores conditions whose field key is unknown. -/
theorem keepRecord_known_filter (env : JsEnv) (vC : List FilterCondition)
    (F : List FieldDefinition) (r : JsRecord) :
    keepRecord env vC F r =
      keepRecord env (vC.filter fun c => (fieldLookup F c.fieldKey).isSome) F r := by
  apply Bool.coe_iff_coe.mp
  unfold keepRecord
  rw [List.all_eq_true, List.all_eq_true]
  have hgk := groupKeys_filter (fun k => (fieldLookup F k).isSome) vC
  simp only [hgk]
  constructor
  · intro h k hk
    have hkg : k ∈ groupKeys vC := (List.mem_filter.mp hk).1
    have hkp : (fieldLookup F k).isSome = true := (List.mem_filter.mp hk).2
    obtain ⟨fd, hfd⟩ := Option.isSome_iff_exists.mp hkp
    have h' := h k hkg
    rw [hfd] at h' ⊢
    rw [group_restrict vC F k hkp]
    exact h'
  · intro h k hkg
    by_cases hkp : (fieldLookup F k).isSome = true
    · have h' := h k (List.mem_filter.mpr ⟨hkg, hkp⟩)
      obtain ⟨fd, hfd⟩ := Option.isSome_iff_exists.mp hkp
      rw [hfd] at h' ⊢
      rw [group_restrict vC F k hkp] at h'
      exact h'
    · have hnone : fieldLookup F k = none := by
        cases hfk : fieldLookup F k with
        | none => rfl
        | some fd => exact absurd (by simp [hfk]) hkp
      rw [hnone]

/-- C8: conditions whose `fieldKey` matches no field definition never
constrain the result: `applyFilters` returns the same list as applying
only the conditions with a defined key. -/
theorem unknown_field_groups_dont_constrain (env : JsEnv) (data : List JsRecord)
    (C : List FilterCondition) (F : List FieldDefinition) :
    applyFilters env data C F =
      applyFilters env data (C.filter fun c => (fieldLookup F c.fieldKey).isSome) F := by
  rw [applyFilters_eq, applyFilters_eq]
  rw [List.filter_comm]
  by_cases hE : (C.filter isValidFilter).isEmpty = true
  · have hnil := List.isEmpty_iff.mp hE
    rw [hnil]
    simp
  · by_cases hE2 :
      ((C.filter isValidFilter).filter fun c => (fieldLookup F c.fieldKey).isSome).isEmpty
        = true
    · rw [if_neg hE, if_pos hE2]
      apply List.filter_eq_self.mpr
      intro r _
      have hall : ∀ c ∈ C.filter isValidFilter,
          ((fieldLookup F c.fieldKey).isSome : Bool) = false := by
        intro c hc
        have := List.filter_eq_nil_iff.mp (List.isEmpty_iff.mp hE2)
        simpa using this c hc
      unfold keepRecord
      rw [List.all_eq_true]
      intro k hk
      obtain ⟨c, hcmem, hck⟩ := List.mem_map.mp ((mem_groupKeys k _).mp hk)
      have hnone : fieldLookup F k = none := by
        have h1 := hall c hcmem
        rw [hck] at h1
        cases hfk : fieldLookup F k with
        | none => rfl
        | some fd => rw [hfk] at h1; simp at h1
      rw [hnone]
    · rw [if_neg hE, if_neg hE2]
      apply List.filter_congr
      intro r _
      exact keepRecord_known_filter env _ F r

end DynamicFilter
